import Mathlib

/-!
Shallow embedding of the scheduling core of `spraycharles` (file
`src/spraycharles/lib/spraycharles.py`, class `Spraycharles`) and proofs about it.

The embedding covers:
* `_check_sleep`   — the per-round pacing/analysis gate (`check_sleep`);
* `_check_file_contents` — the credential-list re-check (`check_file_contents`);
* `_login`         — the retrying login wrapper (`loginTrace`);
* `_jitter`        — the jitter sleep (`jitterEvents`);
* `_spray_equal`   — the equal pass (`sprayEqualAux`, `spray_equal`);
* `spray`          — the main loop (`sprayRoundAux`, `sprayRound`, `sprayLoop`, `spray`),
  plus `sprayOrder`, which models the `for password in self.passwords`
  iteration when the password list is extended mid-run;
* `initialize_module` — the module lookup loop.

Runs are modelled as event traces; machine interaction (progress bars, log lines,
the operator pause prompt, `total_hits` bookkeeping) is not observable by any of
the properties below and is left out of the trace alphabet.
-/

namespace Spraycharles

/-- Observable scheduling events of a run, in program order: `pacingSleep` is
`time.sleep(self.interval * 60)` inside `_check_sleep`; `analysisRun` is the
`analyzer.analyze()` call that precedes it when analysis is enabled;
`jitterSleep` is the `sleep(num)` inside `_jitter`; `login u p` is one call
`self._login(u, p)`, i.e. one logical login attempt with username `u` and
password `p`. -/
inductive Event where
  | pacingSleep : Event
  | analysisRun : Event
  | jitterSleep : Event
  | login (username password : String) : Event
  deriving DecidableEq

/-- Configuration fields of the `Spraycharles` object read by the scheduling
logic. `attempts = none` models `self.attempts = None` (no limit configured).
Python truthiness tests `if self.domain:` / `if self.jitter:` are modelled by
`domain` being `some` of a (non-empty) domain string and by the boolean
`jitter`; `analyze` is the `--analyze` flag and `equal` the `--equal` flag. -/
structure Config where
  attempts : Option Nat
  domain : Option String
  equal : Bool
  jitter : Bool
  analyze : Bool

/-- Embedding of `Spraycharles._check_sleep`: when `login_attempts == attempts`,
optionally run analysis, sleep for the interval, and reset the counter to 0;
otherwise do nothing. Returns the emitted events and the updated
`login_attempts`. (The operator pause prompt and the `total_hits` update inside
the analysis branch affect no event of the trace alphabet and are omitted.) -/
def check_sleep (cfg : Config) (login_attempts : Nat) : List Event × Nat :=
  if cfg.attempts = some login_attempts then
    ((if cfg.analyze then [Event.analysisRun] else []) ++ [Event.pacingSleep], 0)
  else
    ([], login_attempts)

/-- Embedding of `Spraycharles._jitter`: if jitter is configured, sleep for a
random number of seconds (the drawn value is not observable in the trace
alphabet); otherwise do nothing. -/
def jitterEvents (cfg : Config) : List Event :=
  if cfg.jitter then [Event.jitterSleep] else []

/-- Characters of a string before the first `@`, mirroring Python's
`username.split("@")[0]`. -/
def takeUntilAt : List Char → List Char
  | [] => []
  | c :: cs => if c = '@' then [] else c :: takeUntilAt cs

/-- Embedding of `username.split("@")[0]` in `_spray_equal`: the text of the
username before the first `@` (the whole username when it has no `@`). -/
def localPart (s : String) : String := ⟨takeUntilAt s.data⟩

/-- Embedding of the domain-prefix step of the main loop:
`if self.domain: username = f"{self.domain}\\{username}"`. -/
def applyDomain (cfg : Config) (username : String) : String :=
  match cfg.domain with
  | some d => d ++ "\\" ++ username
  | none => username

/-- Embedding of `Spraycharles._check_file_contents`: re-read the credential
file and return the entries not already in the current list.
`fileLines = none` models the `open`/`read` raising (the file no longer exists,
or the configured source was a literal value, not a path), in which case the
`except` clause leaves `new_list = []`; `some ls` models a successful read
whose `splitlines()` result is `ls`. Python's
`list(set(new_list) - set(current_list))` returns the set difference in no
guaranteed order; it is modelled as a duplicate-free list of that set
difference in one fixed order. -/
def check_file_contents (fileLines : Option (List String))
    (current_list : List String) : List String :=
  let new_list := fileLines.getD []
  (new_list.filter (fun x => x ∉ current_list)).dedup

/-- Outcome of one call to `self.target.login(username, password)` as
classified by the `try`/`except` arms of `_login`: a normally returned
`Response` (success or protocol-level failure, carrying an abstract body),
a raised `requests.ConnectTimeout`, or a raised transient condition
(`requests.ConnectionError`, `requests.ReadTimeout`, `OSError`). -/
inductive LoginOutcome where
  | response (body : String) : LoginOutcome
  | connectTimeout : LoginOutcome
  | transient : LoginOutcome
  deriving DecidableEq

/-- One AttemptRecord appended to the result artifact by
`self.target.print_response`: either a forwarded response
(`print_response(response, self.output, ...)`) or the distinguished timeout
record (`print_response(None, self.output, timeout=True, ...)`). -/
inductive Record where
  | response (body : String) : Record
  | timeout : Record
  deriving DecidableEq

/-- Events of one `_login` call: `record r` is one `print_response` call
appending AttemptRecord `r`; `warnBackoff s` is the
`logger.warning("Connection error - sleeping for 5 seconds")` plus `sleep(5)`
pair, with `s` the backoff length in seconds. -/
inductive LoginEvent where
  | record (r : Record) : LoginEvent
  | warnBackoff (seconds : Nat) : LoginEvent
  deriving DecidableEq

/-- Embedding of `Spraycharles._login`, driven by the list of successive
outcomes of `self.target.login` on this (username, password) pair: a returned
response is forwarded to `print_response` once; a `ConnectTimeout` records the
timeout outcome once; a transient failure warns, sleeps 5 seconds, and retries
(the recursive `self._login(username, password)` call). An empty outcome list
means no further call is observed. -/
def loginTrace : List LoginOutcome → List LoginEvent
  | [] => []
  | .response b :: _ => [.record (.response b)]
  | .connectTimeout :: _ => [.record .timeout]
  | .transient :: rest => .warnBackoff 5 :: loginTrace rest

/-- AttemptRecords appended during a sequence of `_login` events, in order. -/
def records (evts : List LoginEvent) : List Record :=
  evts.filterMap fun e =>
    match e with
    | .record r => some r
    | .warnBackoff _ => none

/-- Record produced by a terminal (non-transient) outcome of `target.login`:
a returned response is forwarded as-is, a `ConnectTimeout` becomes the
distinguished timeout record. (The `transient` case never terminates a
`_login` call; its value here is irrelevant.) -/
def terminalRecord : LoginOutcome → Record
  | .response b => .response b
  | .connectTimeout => .timeout
  | .transient => .timeout

/-- Embedding of the `for indx, username in enumerate(self.usernames)` loop of
`_spray_equal`, carrying the running index: jitter before every attempt except
the first (`if indx > 0`), then one login with password equal to the
username's local part. No domain prefix is applied in this loop. -/
def sprayEqualAux (cfg : Config) : Nat → List String → List Event
  | _, [] => []
  | indx, u :: us =>
    (if indx > 0 then jitterEvents cfg else []) ++
      [Event.login u (localPart u)] ++ sprayEqualAux cfg (indx + 1) us

/-- Embedding of `Spraycharles._spray_equal`: one attempt per username with
password = local part of the username, then `self.login_attempts += 1` once
after the loop. Returns the events and the updated counter. -/
def spray_equal (cfg : Config) (usernames : List String)
    (login_attempts : Nat) : List Event × Nat :=
  (sprayEqualAux cfg 0 usernames, login_attempts + 1)

/-- Embedding of the `for indx, username in enumerate(self.usernames)` loop of
one password round of `spray`: if the run used the equal pass, jitter before
every attempt (including `indx = 0`); otherwise jitter only when `indx > 0`;
then the domain prefix is applied and the login performed. -/
def sprayRoundAux (cfg : Config) (password : String) : Nat → List String → List Event
  | _, [] => []
  | indx, u :: us =>
    (if cfg.equal then jitterEvents cfg
     else if indx > 0 then jitterEvents cfg else []) ++
      [Event.login (applyDomain cfg u) password] ++ sprayRoundAux cfg password (indx + 1) us

/-- Events of the inner username loop of `spray` for one password round. -/
def sprayRound (cfg : Config) (usernames : List String) (password : String) :
    List Event :=
  sprayRoundAux cfg password 0 usernames

/-- Embedding of the `for password in self.passwords` loop of `spray`, in the
case where `_check_file_contents` returns no additions on any round (fixed
credential lists): each round runs `_check_sleep`, sprays the password against
every username, then increments `self.login_attempts` by 1. Returns the events
and the final counter. -/
def sprayLoop (cfg : Config) (usernames : List String) :
    List String → Nat → List Event × Nat
  | [], c => ([], c)
  | p :: ps, c =>
    let chk := check_sleep cfg c
    let rest := sprayLoop cfg usernames ps (chk.2 + 1)
    (chk.1 ++ sprayRound cfg usernames p ++ rest.1, rest.2)

/-- Embedding of `Spraycharles.spray` with fixed credential lists: the equal
pass first when `self.equal` is set, then the main password loop.
`self.login_attempts` starts at 0 (set in `__init__`). The final unconditional
`analyzer.analyze()` after the loop is outside every claim and omitted from
the trace. -/
def spray (cfg : Config) (usernames passwords : List String) : List Event × Nat :=
  if cfg.equal then
    let eq := spray_equal cfg usernames 0
    let main := sprayLoop cfg usernames passwords eq.2
    (eq.1 ++ main.1, main.2)
  else
    sprayLoop cfg usernames passwords 0

/-- Values taken by `self.login_attempts` during the main password loop,
mirroring the counter threading of `sprayLoop`: for each round, the value
before `_check_sleep`, the value after it (showing the reset to 0 when the
sleep fired), and — via the recursive call — the value after the per-round
increment; the final value closes the list. -/
def sprayCounters (cfg : Config) : List String → Nat → List Nat
  | [], c => [c]
  | _ :: ps, c =>
    c :: (check_sleep cfg c).2 :: sprayCounters cfg ps ((check_sleep cfg c).2 + 1)

/-- Embedding of the `for password in self.passwords` iteration when the
password file grows mid-run: Python's list iterator walks the list by index,
so entries appended by `self.passwords.extend(new_passwords)` during a round
are visited by later rounds. `pending` is the not-yet-visited suffix of the
list; `additions` gives, round by round, the delta merged by
`_check_file_contents` during that round (with no further entries once the
schedule is exhausted). The result is the sequence of passwords actually
processed, in processing order; the loop stops when the index reaches the end
of the (possibly grown) list. -/
def sprayOrder : List String → List (List String) → List String
  | [], _ => []
  | pending, [] => pending
  | p :: pending, a :: additions => p :: sprayOrder (pending ++ a) additions

/-- One entry of the `all_modules` list scanned by `initialize_module`,
identified by its `NAME` attribute. -/
structure TargetModule where
  NAME : String
  deriving DecidableEq

/-- State touched by `Spraycharles.initialize_module`: the bound target
(`self.target`, initially `None` from `__init__`) and whether the logfile has
been configured (`logging.basicConfig`). -/
structure InitState where
  target : Option TargetModule
  logConfigured : Bool
  deriving DecidableEq

/-- Embedding of `Spraycharles.initialize_module`: a linear scan over
`all_modules` binding `self.target` on a name match (the `set_path` /
`set_plain_http` calls mutate the bound target only); whether or not any
module matched, control falls through to configuring the logfile and the
method returns normally — it has no error path. -/
def initialize_module (all_modules : List TargetModule) (module : String)
    (st : InitState) : InitState :=
  let st1 := all_modules.foldl
    (fun s t => if module = t.NAME then { s with target := some t } else s) st
  { st1 with logConfigured := true }

/-- Login calls occurring in an event trace, in order, as
(username, password) pairs. -/
def loginsOf (evts : List Event) : List (String × String) :=
  evts.filterMap fun e =>
    match e with
    | .login u p => some (u, p)
    | _ => none

/-- Number of pacing sleeps in an event trace. -/
def sleepCount (evts : List Event) : Nat :=
  evts.count Event.pacingSleep


lemma loginsOf_append (a b : List Event) :
    loginsOf (a ++ b) = loginsOf a ++ loginsOf b := by
  simp [loginsOf]

lemma loginsOf_jitterEvents (cfg : Config) : loginsOf (jitterEvents cfg) = [] := by
  unfold jitterEvents
  split <;> rfl

lemma loginsOf_check_sleep (cfg : Config) (c : Nat) :
    loginsOf (check_sleep cfg c).1 = [] := by
  unfold check_sleep
  split
  · by_cases h : cfg.analyze <;> simp [h, loginsOf]
  · rfl

lemma loginsOf_sprayRoundAux (cfg : Config) (p : String) (us : List String) :
    ∀ i, loginsOf (sprayRoundAux cfg p i us) = us.map fun u => (applyDomain cfg u, p) := by
  induction us with
  | nil => intro i; rfl
  | cons u us ih =>
    intro i
    simp only [sprayRoundAux]
    rw [loginsOf_append, loginsOf_append, ih]
    have h1 : loginsOf (if cfg.equal then jitterEvents cfg
        else if i > 0 then jitterEvents cfg else []) = [] := by
      split
      · exact loginsOf_jitterEvents cfg
      · split
        · exact loginsOf_jitterEvents cfg
        · rfl
    rw [h1]
    simp [loginsOf]

lemma loginsOf_sprayEqualAux (cfg : Config) (us : List String) :
    ∀ i, loginsOf (sprayEqualAux cfg i us) = us.map fun u => (u, localPart u) := by
  induction us with
  | nil => intro i; rfl
  | cons u us ih =>
    intro i
    simp only [sprayEqualAux]
    rw [loginsOf_append, loginsOf_append, ih]
    have h1 : loginsOf (if i > 0 then jitterEvents cfg else []) = [] := by
      split
      · exact loginsOf_jitterEvents cfg
      · rfl
    rw [h1]
    simp [loginsOf]

lemma loginsOf_sprayLoop (cfg : Config) (us : List String) :
    ∀ (ps : List String) (c : Nat),
      loginsOf (sprayLoop cfg us ps c).1 =
        (ps.map fun p => us.map fun u => (applyDomain cfg u, p)).flatten := by
  intro ps
  induction ps with
  | nil => intro c; rfl
  | cons p ps ih =>
    intro c
    simp only [sprayLoop, List.map_cons, List.flatten]
    rw [loginsOf_append, loginsOf_append, loginsOf_check_sleep, ih]
    rw [show sprayRound cfg us p = sprayRoundAux cfg p 0 us from rfl,
      loginsOf_sprayRoundAux]
    simp


lemma pacingSleep_not_mem_jitterEvents (cfg : Config) :
    Event.pacingSleep ∉ jitterEvents cfg := by
  unfold jitterEvents
  split <;> simp

lemma pacingSleep_not_mem_sprayRoundAux (cfg : Config) (p : String) (us : List String) :
    ∀ i, Event.pacingSleep ∉ sprayRoundAux cfg p i us := by
  induction us with
  | nil => intro i; simp [sprayRoundAux]
  | cons u us ih =>
    intro i
    simp only [sprayRoundAux, List.mem_append, List.mem_singleton]
    push_neg
    refine ⟨⟨?_, by simp⟩, ih _⟩
    split
    · exact pacingSleep_not_mem_jitterEvents cfg
    · split
      · exact pacingSleep_not_mem_jitterEvents cfg
      · simp

lemma pacingSleep_not_mem_sprayEqualAux (cfg : Config) (us : List String) :
    ∀ i, Event.pacingSleep ∉ sprayEqualAux cfg i us := by
  induction us with
  | nil => intro i; simp [sprayEqualAux]
  | cons u us ih =>
    intro i
    simp only [sprayEqualAux, List.mem_append, List.mem_singleton]
    push_neg
    refine ⟨⟨?_, by simp⟩, ih _⟩
    split
    · exact pacingSleep_not_mem_jitterEvents cfg
    · simp

lemma sleepCount_append (a b : List Event) :
    sleepCount (a ++ b) = sleepCount a + sleepCount b := by
  simp [sleepCount, List.count_append]

lemma check_sleep_fire (cfg : Config) (a : Nat) (hA : cfg.attempts = some a) :
    check_sleep cfg a =
      ((if cfg.analyze then [Event.analysisRun] else []) ++ [Event.pacingSleep], 0) := by
  unfold check_sleep
  rw [hA]
  simp

lemma check_sleep_skip (cfg : Config) (a c : Nat) (hA : cfg.attempts = some a)
    (h : c ≠ a) : check_sleep cfg c = ([], c) := by
  unfold check_sleep
  rw [hA]
  simp [Ne.symm h]

lemma sleepCount_check_sleep_fire (cfg : Config) (a : Nat) (hA : cfg.attempts = some a) :
    sleepCount (check_sleep cfg a).1 = 1 := by
  rw [check_sleep_fire cfg a hA]
  by_cases h : cfg.analyze <;> simp [h, sleepCount]

lemma sleepCount_sprayLoop (cfg : Config) (a : Nat) (hA : cfg.attempts = some a)
    (ha : 1 ≤ a) (us : List String) :
    ∀ (ps : List String) (c : Nat), c ≤ a →
      sleepCount (sprayLoop cfg us ps c).1 = (ps.length + c - 1) / a := by
  intro ps
  induction ps with
  | nil =>
    intro c hc
    have hlt : c - 1 < a := by omega
    simp [sprayLoop, sleepCount, Nat.div_eq_of_lt hlt]
  | cons p ps ih =>
    intro c hc
    simp only [sprayLoop, List.length_cons]
    rw [sleepCount_append, sleepCount_append]
    rw [show sleepCount (sprayRound cfg us p) = 0 from
      List.count_eq_zero.mpr (pacingSleep_not_mem_sprayRoundAux cfg p us 0)]
    by_cases h : c = a
    · rw [h]
      rw [sleepCount_check_sleep_fire cfg a hA]
      rw [check_sleep_fire cfg a hA]
      rw [ih 1 (by omega)]
      have h4 : ps.length + 1 - 1 = ps.length := by omega
      rw [h4]
      have h2 : ps.length + 1 + a - 1 = ps.length + a := by omega
      rw [h2, Nat.add_div_right _ (by omega : 0 < a)]
      omega
    · rw [check_sleep_skip cfg a c hA h]
      have hc1 : c + 1 ≤ a := by omega
      rw [ih (c + 1) hc1]
      have h2 : ps.length + 1 + c - 1 = ps.length + (c + 1) - 1 := by omega
      simp [sleepCount, h2]


lemma check_sleep_counter_le (cfg : Config) (a c : Nat) (hA : cfg.attempts = some a)
    (ha : 1 ≤ a) (hc : c ≤ a) :
    (check_sleep cfg c).2 + 1 ≤ a ∧ (check_sleep cfg c).2 ≤ a := by
  by_cases h : c = a
  · rw [h, check_sleep_fire cfg a hA]
    exact ⟨by omega, by omega⟩
  · rw [check_sleep_skip cfg a c hA h]
    exact ⟨by omega, by omega⟩

lemma sprayCounters_le (cfg : Config) (a : Nat) (hA : cfg.attempts = some a)
    (ha : 1 ≤ a) :
    ∀ (ps : List String) (c : Nat), c ≤ a → ∀ x ∈ sprayCounters cfg ps c, x ≤ a := by
  intro ps
  induction ps with
  | nil =>
    intro c hc x hx
    simp only [sprayCounters, List.mem_singleton] at hx
    omega
  | cons p ps ih =>
    intro c hc x hx
    have hle := check_sleep_counter_le cfg a c hA ha hc
    simp only [sprayCounters, List.mem_cons] at hx
    rcases hx with h1 | h1 | h1
    · omega
    · omega
    · exact ih _ hle.1 x h1

lemma sprayLoop_final_mem (cfg : Config) (us : List String) :
    ∀ (ps : List String) (c : Nat),
      (sprayLoop cfg us ps c).2 ∈ sprayCounters cfg ps c := by
  intro ps
  induction ps with
  | nil => intro c; simp [sprayLoop, sprayCounters]
  | cons p ps ih =>
    intro c
    simp only [sprayLoop, sprayCounters]
    exact List.mem_cons_of_mem _ (List.mem_cons_of_mem _ (ih _))

lemma check_sleep_reset (cfg : Config) (c : Nat)
    (h : Event.pacingSleep ∈ (check_sleep cfg c).1) : (check_sleep cfg c).2 = 0 := by
  unfold check_sleep at h ⊢
  by_cases hc : cfg.attempts = some c
  · simp [hc]
  · simp [hc] at h

lemma sleepCount_spray (cfg : Config) (a : Nat) (hA : cfg.attempts = some a)
    (ha : 1 ≤ a) (us ps : List String) :
    sleepCount (spray cfg us ps).1 =
      (ps.length + (if cfg.equal then 1 else 0) - 1) / a := by
  unfold spray
  by_cases he : cfg.equal
  · rw [if_pos he, if_pos he]
    show sleepCount ((spray_equal cfg us 0).1 ++ _) = _
    rw [sleepCount_append]
    rw [show sleepCount (spray_equal cfg us 0).1 = 0 from
      List.count_eq_zero.mpr (pacingSleep_not_mem_sprayEqualAux cfg us 0)]
    rw [show (spray_equal cfg us 0).2 = 1 from rfl]
    rw [sleepCount_sprayLoop cfg a hA ha us ps 1 ha]
    omega
  · rw [if_neg he, if_neg he]
    rw [sleepCount_sprayLoop cfg a hA ha us ps 0 (by omega)]

lemma loginsOf_spray_of_not_equal (cfg : Config) (he : cfg.equal = false)
    (us ps : List String) :
    loginsOf (spray cfg us ps).1 =
      (ps.map fun p => us.map fun u => (applyDomain cfg u, p)).flatten := by
  unfold spray
  rw [if_neg (by simp [he])]
  rw [loginsOf_sprayLoop]

lemma takeUntilAt_eq_takeWhile (cs : List Char) :
    takeUntilAt cs = cs.takeWhile (fun ch => ch ≠ '@') := by
  induction cs with
  | nil => rfl
  | cons c cs ih =>
    by_cases h : c = '@'
    · subst h
      simp [takeUntilAt, List.takeWhile_cons]
    · simp [takeUntilAt, List.takeWhile_cons, h, ih]

lemma init_foldl_no_match (name : String) :
    ∀ (mods : List TargetModule) (st : InitState),
      name ∉ mods.map TargetModule.NAME →
      mods.foldl
        (fun s t => if name = t.NAME then { s with target := some t } else s) st = st := by
  intro mods
  induction mods with
  | nil => intro st _; rfl
  | cons m mods ih =>
    intro st h
    simp only [List.map_cons, List.mem_cons] at h
    push_neg at h
    simp only [List.foldl_cons, if_neg h.1]
    exact ih st h.2


lemma sprayOrder_eq (sched : List (List String)) :
    ∀ pending : List String, sched.length ≤ pending.length →
      sprayOrder pending sched = pending ++ sched.flatten := by
  induction sched with
  | nil => intro pending h; cases pending <;> simp [sprayOrder]
  | cons a sched ih =>
    intro pending h
    cases pending with
    | nil => simp at h
    | cons p pending =>
      simp only [sprayOrder]
      rw [ih (pending ++ a)
        (by simp only [List.length_cons, List.length_append] at h ⊢; omega)]
      simp

/-- C1: for any configured attempts-per-interval limit `a ≥ 1` and any run over
`N` password rounds (the equal pass counting as one round), the pacing sleep of
`_check_sleep` fires exactly `(N - 1) / a` times — once per `a` completed
rounds, at the check that follows each completed block of `a` rounds, never
more and never fewer; and with limit 1 and passwords `["pw1", "pw2"]` the
sleep fires exactly once, immediately before the round for `"pw2"`. -/
theorem pacing_sleep_frequency (cfg : Config) (a : Nat) (hA : cfg.attempts = some a)
    (ha : 1 ≤ a) (us ps : List String) :
    sleepCount (spray cfg us ps).1 =
      (ps.length + (if cfg.equal then 1 else 0) - 1) / a ∧
    spray ⟨some 1, none, false, false, false⟩ ["alice"] ["pw1", "pw2"] =
      ([Event.login "alice" "pw1", Event.pacingSleep, Event.login "alice" "pw2"], 1) :=
  ⟨sleepCount_spray cfg a hA ha us ps, by decide⟩

theorem pacing_sleep_frequency_witness :
    sleepCount (spray ⟨some 2, none, false, false, false⟩ ["u1"] ["p1", "p2", "p3"]).1 = 1 ∧
    spray ⟨some 1, none, false, false, false⟩ ["alice"] ["pw1", "pw2"] =
      ([Event.login "alice" "pw1", Event.pacingSleep, Event.login "alice" "pw2"], 1) :=
  pacing_sleep_frequency ⟨some 2, none, false, false, false⟩ 2 rfl (by decide)
    ["u1"] ["p1", "p2", "p3"]

/-- C2: login attempts are issued strictly sequentially, ordered by
(password-round, username-index): the login calls of a run are exactly, for
each password in list order, all usernames in list order; and the scenario
usernames `["alice", "bob"]`, passwords `["pw1", "pw2"]`, limit 2, no jitter,
no domain, no equal pass produces exactly the four calls
(alice,pw1), (bob,pw1), (alice,pw2), (bob,pw2) with zero pacing sleeps. -/
theorem attempts_strictly_ordered (cfg : Config) (he : cfg.equal = false)
    (us ps : List String) :
    loginsOf (spray cfg us ps).1 =
      (ps.map fun p => us.map fun u => (applyDomain cfg u, p)).flatten ∧
    spray ⟨some 2, none, false, false, false⟩ ["alice", "bob"] ["pw1", "pw2"] =
      ([Event.login "alice" "pw1", Event.login "bob" "pw1",
        Event.login "alice" "pw2", Event.login "bob" "pw2"], 2) :=
  ⟨loginsOf_spray_of_not_equal cfg he us ps, by decide⟩

theorem attempts_strictly_ordered_witness :
    loginsOf (spray ⟨none, none, false, false, false⟩ ["x"] ["q"]).1 = [("x", "q")] ∧
    spray ⟨some 2, none, false, false, false⟩ ["alice", "bob"] ["pw1", "pw2"] =
      ([Event.login "alice" "pw1", Event.login "bob" "pw1",
        Event.login "alice" "pw2", Event.login "bob" "pw2"], 2) :=
  attempts_strictly_ordered ⟨none, none, false, false, false⟩ rfl ["x"] ["q"]

/-- C3: one logical login attempt appends exactly one AttemptRecord: after any
number `n` of transient-failure retries, the first terminal outcome `t` — a
returned response (success or protocol-level failure), forwarded as-is, or a
connect timeout, recorded as the distinguished timeout record — produces
exactly the one-element record list `[terminalRecord t]`; the failed
sub-attempts append nothing. -/
theorem one_record_per_attempt (n : Nat) (t : LoginOutcome)
    (rest : List LoginOutcome) (ht : t ≠ LoginOutcome.transient) :
    records (loginTrace (List.replicate n LoginOutcome.transient ++ t :: rest)) =
      [terminalRecord t] := by
  induction n with
  | zero =>
    cases t with
    | response b => rfl
    | connectTimeout => rfl
    | transient => exact absurd rfl ht
  | succ n ih =>
    simp only [List.replicate_succ, List.cons_append, loginTrace]
    simpa [records] using ih

theorem one_record_per_attempt_witness :
    records (loginTrace (List.replicate 3 LoginOutcome.transient ++
        LoginOutcome.response "200 OK" :: [])) =
      [terminalRecord (LoginOutcome.response "200 OK")] :=
  one_record_per_attempt 3 (LoginOutcome.response "200 OK") [] (by decide)

/-- C4 (code bug): when the configured module name matches no known module,
`initialize_module` does not reject the run: the linear scan falls through
silently, leaving `self.target = None`, and the method still configures the
logfile and returns normally — no fatal error is reported before the schedule
can enter the equal pass or the spray loop. -/
theorem unknown_module_not_rejected (mods : List TargetModule) (name : String)
    (h : name ∉ mods.map TargetModule.NAME) :
    (initialize_module mods name ⟨none, false⟩).target = none ∧
    (initialize_module mods name ⟨none, false⟩).logConfigured = true := by
  unfold initialize_module
  rw [init_foldl_no_match name mods ⟨none, false⟩ h]
  exact ⟨rfl, rfl⟩

theorem unknown_module_not_rejected_witness :
    (initialize_module [⟨"SMB"⟩, ⟨"NTLM"⟩] "BOGUS" ⟨none, false⟩).target = none ∧
    (initialize_module [⟨"SMB"⟩, ⟨"NTLM"⟩] "BOGUS" ⟨none, false⟩).logConfigured = true :=
  unknown_module_not_rejected [⟨"SMB"⟩, ⟨"NTLM"⟩] "BOGUS" (by decide)

/-- C5 (counterexample): with domain `CORP` configured and the equal pass
enabled, the run over usernames `["alice"]` issues the login call
`(alice, alice)`: its username is the raw username, not `CORP\alice` — so it
is false that every username passed to the login call across the run,
equal-pass attempts included, is `domain\username`. -/
theorem domain_prefix_counterexample :
    Event.login "alice" "alice" ∈
      (spray ⟨some 10, some "CORP", true, false, false⟩ ["alice"] []).1 ∧
    ("alice" : String) ≠ "CORP" ++ "\\" ++ "alice" := by
  decide

/-- C5 (amended): when a domain is configured, every username passed to the
login call by a main-loop password round is exactly `domain\username`, and
with no domain configured the raw username is passed; the equal pass, however,
always passes the raw username — it applies no domain prefix. -/
theorem domain_prefix_amended (d : String) (A : Option Nat)
    (equal jit ana : Bool) (us : List String) (p : String) :
    loginsOf (sprayRound ⟨A, some d, equal, jit, ana⟩ us p) =
      us.map (fun u => (d ++ "\\" ++ u, p)) ∧
    loginsOf (sprayRound ⟨A, none, equal, jit, ana⟩ us p) =
      us.map (fun u => (u, p)) ∧
    loginsOf (spray_equal ⟨A, some d, equal, jit, ana⟩ us 0).1 =
      us.map (fun u => (u, localPart u)) :=
  ⟨loginsOf_sprayRoundAux _ p us 0, loginsOf_sprayRoundAux _ p us 0,
    loginsOf_sprayEqualAux _ us 0⟩

/-- C6: the equal pass performs exactly one login per username, in list order,
with password the text of the username before the first `@` (`localPart`,
which equals the longest `@`-free prefix), and afterwards increments
`login_attempts` by exactly 1 regardless of how many usernames were
attempted. -/
theorem equal_pass_spec (cfg : Config) (us : List String) (c : Nat) :
    loginsOf (spray_equal cfg us c).1 = us.map (fun u => (u, localPart u)) ∧
    (spray_equal cfg us c).2 = c + 1 ∧
    (∀ s : String, (localPart s).data = s.data.takeWhile (fun ch => ch ≠ '@')) :=
  ⟨loginsOf_sprayEqualAux cfg us 0, rfl, fun s => takeUntilAt_eq_takeWhile s.data⟩

/-- C7: retry policy of `_login`: a connect timeout is recorded as the
terminal timeout outcome and never retried; a transient failure logs a warning
and backs off for exactly 5 seconds and then retries the same pair; and when
every sub-attempt fails transiently the retrying continues without bound —
`n` transient outcomes give `n` warn/backoff events and no record, for every
`n`. -/
theorem retry_policy (rest : List LoginOutcome) (n : Nat) :
    loginTrace (LoginOutcome.connectTimeout :: rest) =
      [LoginEvent.record Record.timeout] ∧
    loginTrace (LoginOutcome.transient :: rest) =
      LoginEvent.warnBackoff 5 :: loginTrace rest ∧
    loginTrace (List.replicate n LoginOutcome.transient) =
      List.replicate n (LoginEvent.warnBackoff 5) := by
  refine ⟨rfl, rfl, ?_⟩
  induction n with
  | zero => rfl
  | succ n ih => simp only [List.replicate_succ, loginTrace, ih]

/-- C8: the `login_attempts` counter is reset to 0 immediately after a pacing
sleep (and its associated analysis), and at no point of the main loop does it
exceed the configured limit: every value it takes — before each round's check,
after the check, after each per-round increment, and at loop exit — is at most
`a`, for any starting value at most `a` (0 at run start, or 1 after the equal
pass). -/
theorem counter_invariant (cfg : Config) (a : Nat) (hA : cfg.attempts = some a)
    (ha : 1 ≤ a) (us ps : List String) (c0 : Nat) (hc0 : c0 ≤ a) :
    (∀ x ∈ sprayCounters cfg ps c0, x ≤ a) ∧
    (∀ c, Event.pacingSleep ∈ (check_sleep cfg c).1 → (check_sleep cfg c).2 = 0) ∧
    (sprayLoop cfg us ps c0).2 ∈ sprayCounters cfg ps c0 :=
  ⟨sprayCounters_le cfg a hA ha ps c0 hc0,
    fun c => check_sleep_reset cfg c,
    sprayLoop_final_mem cfg us ps c0⟩

theorem counter_invariant_witness :
    (∀ x ∈ sprayCounters ⟨some 2, none, false, false, false⟩ ["p1", "p2", "p3"] 0,
      x ≤ 2) ∧
    (∀ c, Event.pacingSleep ∈ (check_sleep ⟨some 2, none, false, false, false⟩ c).1 →
      (check_sleep ⟨some 2, none, false, false, false⟩ c).2 = 0) ∧
    (sprayLoop ⟨some 2, none, false, false, false⟩ ["u"] ["p1", "p2", "p3"] 0).2 ∈
      sprayCounters ⟨some 2, none, false, false, false⟩ ["p1", "p2", "p3"] 0 :=
  counter_invariant ⟨some 2, none, false, false, false⟩ 2 rfl (by decide) ["u"]
    ["p1", "p2", "p3"] 0 (by decide)

/-- C9: the credential-list re-check returns exactly the set difference when
the file is readable — an entry is in the returned delta exactly when it is a
file line not already in the current list, with no duplicates (order
unspecified) — and when the file cannot be read it returns the empty delta:
the failure is swallowed and extending the current list by that delta leaves
it unchanged. -/
theorem file_recheck_delta (ls current : List String) :
    (∀ x, x ∈ check_file_contents (some ls) current ↔ (x ∈ ls ∧ x ∉ current)) ∧
    (check_file_contents (some ls) current).Nodup ∧
    check_file_contents none current = [] ∧
    current ++ check_file_contents none current = current := by
  refine ⟨?_, ?_, rfl, by simp [check_file_contents]⟩
  · intro x
    simp [check_file_contents, List.mem_dedup, List.mem_filter]
  · exact List.nodup_dedup _

/-- C10: passwords appended to the password file mid-run and merged by the
re-check are processed as additional rounds of the same run: the index-based
iteration observes appended entries, so when the addition schedule runs no
longer than the original password list the processed rounds are exactly the
original list followed by every merged batch in append order; and every round
sprays its password against the full username list in order. -/
theorem merged_passwords_processed (pending : List String)
    (sched : List (List String)) (h : sched.length ≤ pending.length) :
    sprayOrder pending sched = pending ++ sched.flatten ∧
    (∀ (cfg : Config) (us : List String) (p : String),
      loginsOf (sprayRound cfg us p) = us.map fun u => (applyDomain cfg u, p)) :=
  ⟨sprayOrder_eq sched pending h, fun cfg us p => loginsOf_sprayRoundAux cfg p us 0⟩

theorem merged_passwords_processed_witness :
    sprayOrder ["pw1", "pw2"] [["pw3"], []] = ["pw1", "pw2", "pw3"] ∧
    (∀ (cfg : Config) (us : List String) (p : String),
      loginsOf (sprayRound cfg us p) = us.map fun u => (applyDomain cfg u, p)) :=
  merged_passwords_processed ["pw1", "pw2"] [["pw3"], []] (by decide)

end Spraycharles
